import Mathlib

/-!
Shallow embedding of the review bot's diff-anchor and suggestion-mapping
engine (review_bot/main.py and the earlier .github/review_bot/main.py),
together with theorems checking the specification's claims about it.

Python strings are modelled as Lean `String`s (lists of code points);
Python lists as Lean `List`s; Python dicts as association lists with
overwrite-on-insert semantics.  The regular expressions used by the code
are hand-compiled into executable character-list scanners that follow the
backtracking semantics of the original patterns on the inputs the code
can see.
-/

/-! ### Python string primitives -/

/-- Python `\s` / `str.strip` whitespace (ASCII range, as used by the code). -/
def pyIsSpace (c : Char) : Bool :=
  c = ' ' || c = '\t' || c = '\n' || c = '\x0b' || c = '\x0c' || c = '\r'

/-- Python `\w` word character (ASCII range). -/
def pyIsWord (c : Char) : Bool := c.isAlphanum || c = '_'

/-- Python `str.strip()` on a character list. -/
def pyStripChars (l : List Char) : List Char :=
  ((l.dropWhile pyIsSpace).reverse.dropWhile pyIsSpace).reverse

/-- Python `str.strip()`. -/
def pyStrip (s : String) : String := ⟨pyStripChars s.data⟩

/-- The line-boundary characters recognised by Python `str.splitlines`. -/
def isLineBreakChar (c : Char) : Bool :=
  c = '\n' || c = '\r' || c = '\x0b' || c = '\x0c' ||
  c = '\x1c' || c = '\x1d' || c = '\x1e' || c = '\x85' ||
  c = '\u2028' || c = '\u2029'

/-- Worker for `pySplitlines`; `acc` holds the current line reversed and
`afterCR` records that the previous character was `\r` (so that a
following `\n` closes the same line, as in `\r\n`). -/
def splitLinesAux : List Char → List Char → Bool → List String
  | [], acc, _ => if acc.isEmpty then [] else [⟨acc.reverse⟩]
  | c :: rest, acc, afterCR =>
    if afterCR && c = '\n' then splitLinesAux rest acc false
    else if c = '\r' then ⟨acc.reverse⟩ :: splitLinesAux rest [] true
    else if isLineBreakChar c then ⟨acc.reverse⟩ :: splitLinesAux rest [] false
    else splitLinesAux rest (c :: acc) false

/-- Python `str.splitlines()`: no trailing empty line for a trailing
newline, and the empty string gives `[]`. -/
def pySplitlines (s : String) : List String := splitLinesAux s.data [] false

/-- Python slicing `s[:n]` (by code points). -/
def pySlice (s : String) (n : Nat) : String := ⟨s.data.take n⟩

/-- Python `sep.join(xs)`. -/
def pyJoin (sep : String) : List String → String
  | [] => ""
  | [x] => x
  | x :: y :: xs => x ++ sep ++ pyJoin sep (y :: xs)

/-- Python substring containment `needle in hay` on character lists. -/
def containsSub (hay needle : List Char) : Bool :=
  needle.isPrefixOf hay ||
    match hay with
    | [] => false
    | _ :: t => containsSub t needle

/-- Python `needle in hay` for strings. -/
def pyContains (hay needle : String) : Bool := containsSub hay.data needle.data

/-- Python `str.lower()` (ASCII range). -/
def pyLower (s : String) : String := ⟨s.data.map Char.toLower⟩

/-- Python `s.startswith(p)`, via `p.isPrefixOf s.data`. -/
def startsWithLit (s : String) (p : List Char) : Bool := p.isPrefixOf s.data

/-! ### Association lists with Python-dict insert semantics -/

/-- Keys of an association list. -/
def alKeys {β : Type} (m : List (String × β)) : List String := m.map Prod.fst

/-- Python `d.get(k)`. -/
def alGet {β : Type} (m : List (String × β)) (k : String) : Option β :=
  (m.find? (fun p => p.1 = k)).map Prod.snd

/-- Python `d[k] = v`: overwrite in place if present, else append. -/
def alInsert {β : Type} (m : List (String × β)) (k : String) (v : β) :
    List (String × β) :=
  if (alKeys m).contains k then
    m.map (fun p => if p.1 = k then (k, v) else p)
  else m ++ [(k, v)]

/-! ### UnifiedDiffIndex: `diff_anchor_lines` (review_bot/main.py, 92-107) -/

/-- The hunk-header regex `@@ -\d+(?:,\d+)? \+(\d+)` applied with
`re.match`, returning the captured after-side start. -/
def hunkAfterStart (ln : String) : Option Nat :=
  match ln.data with
  | a :: b :: c :: d :: rest =>
    if a = '@' && b = '@' && c = ' ' && d = '-' then
      if (rest.takeWhile Char.isDigit).isEmpty then none
      else
        let r1 := rest.dropWhile Char.isDigit
        let r2 := match r1 with
          | e :: rr =>
            if e = ',' then
              if (rr.takeWhile Char.isDigit).isEmpty then r1
              else rr.dropWhile Char.isDigit
            else r1
          | [] => r1
        match r2 with
        | e :: f :: r3 =>
          if e = ' ' && f = '+' then
            let d2 := r3.takeWhile Char.isDigit
            if d2.isEmpty then none
            else some (d2.foldl (fun n ch => n * 10 + (ch.toNat - 48)) 0)
          else none
        | _ => none
    else none
  | _ => none

/-- Python test: the line starts with one plus sign but not with three. -/
def isAddLine (ln : String) : Bool :=
  startsWithLit ln ['+'] && !startsWithLit ln ['+', '+', '+']

/-- Python test: the line starts with a space, or is non-empty and its
first character is neither plus, minus nor at-sign. -/
def isCtxLine (ln : String) : Bool :=
  startsWithLit ln [' '] ||
    (match ln.data with
     | [] => false
     | c :: _ => !(c = '+' || c = '-' || c = '@'))

/-- All anchor candidates of a diff in diff order, tagged `true` for
addition lines and `false` for context lines. -/
def diffStream : List String → Nat → List (Nat × Bool)
  | [], _ => []
  | ln :: rest, head =>
    match hunkAfterStart ln with
    | some h => diffStream rest h
    | none =>
      if isAddLine ln then (head, true) :: diffStream rest (head + 1)
      else if isCtxLine ln then (head, false) :: diffStream rest (head + 1)
      else diffStream rest head

/-- The loop body of `diff_anchor_lines`: accumulate `adds` and `ctx`. -/
def diffScan : List String → Nat → List Nat → List Nat → List Nat × List Nat
  | [], _, adds, ctx => (adds, ctx)
  | ln :: rest, head, adds, ctx =>
    match hunkAfterStart ln with
    | some h => diffScan rest h adds ctx
    | none =>
      if isAddLine ln then diffScan rest (head + 1) (adds ++ [head]) ctx
      else if isCtxLine ln then diffScan rest (head + 1) adds (ctx ++ [head])
      else diffScan rest head adds ctx

/-- Function `diff_anchor_lines` (review_bot/main.py, lines 92-107). -/
def diff_anchor_lines (patch : String) : List Nat :=
  if patch = "" then [1]
  else
    let p := diffScan (pySplitlines patch) 1 [] []
    if p.1 ++ p.2 = [] then [1] else p.1 ++ p.2

theorem diffScan_eq_stream (lines : List String) (head : Nat) (adds ctx : List Nat) :
    diffScan lines head adds ctx =
      (adds ++ ((diffStream lines head).filter (fun x => x.2)).map (fun x => x.1),
       ctx ++ ((diffStream lines head).filter (fun x => !x.2)).map (fun x => x.1)) := by
  induction lines generalizing head adds ctx with
  | nil => simp [diffScan, diffStream]
  | cons ln rest ih =>
    simp only [diffScan, diffStream]
    cases hH : hunkAfterStart ln with
    | some h => simpa using ih h adds ctx
    | none =>
      cases hA : isAddLine ln with
      | true =>
        simp only [if_pos rfl, ih (head + 1) (adds ++ [head]) ctx,
          List.filter_cons, hA, List.map_cons, List.append_assoc]
        simp
      | false =>
        cases hC : isCtxLine ln with
        | true =>
          simp only [Bool.false_eq_true, if_false, if_pos rfl,
            ih (head + 1) adds (ctx ++ [head]), List.filter_cons,
            List.map_cons, List.append_assoc]
          simp
        | false =>
          simp [ih head adds ctx]

theorem filterPartition_append_eq_nil {α : Type} (p : α → Bool) (l : List α) :
    (l.filter p ++ l.filter (fun x => !p x)) = [] ↔ l = [] := by
  constructor
  · intro h
    have hperm := List.filter_append_perm p l
    have := hperm.length_eq
    rw [h] at this
    exact List.eq_nil_of_length_eq_zero this.symm
  · intro h; simp [h]

/-- C1: an empty or missing diff yields exactly `[1]`; a non-empty diff
yields a non-empty list equal to the addition-derived candidates in diff
order followed by the context-derived candidates in diff order (with the
`[1]` fallback only when the diff produces no candidate at all). -/
theorem diff_anchor_lines_order :
    diff_anchor_lines "" = [1] ∧
    ∀ p : String, diff_anchor_lines p ≠ [] ∧
      (p ≠ "" →
        diff_anchor_lines p =
          if diffStream (pySplitlines p) 1 = [] then [1]
          else
            ((diffStream (pySplitlines p) 1).filter (fun x => x.2)).map (fun x => x.1) ++
            ((diffStream (pySplitlines p) 1).filter (fun x => !x.2)).map (fun x => x.1)) := by
  refine ⟨rfl, fun p => ?_⟩
  by_cases hp : p = ""
  · subst hp
    exact ⟨by simp [diff_anchor_lines], fun h => absurd rfl h⟩
  · have hscan := diffScan_eq_stream (pySplitlines p) 1 [] []
    simp only [List.nil_append] at hscan
    have hval : diff_anchor_lines p =
        if ((diffStream (pySplitlines p) 1).filter (fun x => x.2)).map (fun x => x.1) ++
           ((diffStream (pySplitlines p) 1).filter (fun x => !x.2)).map (fun x => x.1) = []
        then [1]
        else
          ((diffStream (pySplitlines p) 1).filter (fun x => x.2)).map (fun x => x.1) ++
          ((diffStream (pySplitlines p) 1).filter (fun x => !x.2)).map (fun x => x.1) := by
      simp only [diff_anchor_lines, if_neg hp, hscan]
    constructor
    · rw [hval]
      by_cases hnil :
          ((diffStream (pySplitlines p) 1).filter (fun x => x.2)).map (fun x => x.1) ++
          ((diffStream (pySplitlines p) 1).filter (fun x => !x.2)).map (fun x => x.1) = []
      · simp [hnil]
      · simp only [if_neg hnil]; exact hnil
    · intro _
      rw [hval]
      by_cases hst : diffStream (pySplitlines p) 1 = []
      · simp [hst]
      · have hmapnil :
            ¬ (((diffStream (pySplitlines p) 1).filter (fun x => x.2)).map (fun x => x.1) ++
               ((diffStream (pySplitlines p) 1).filter (fun x => !x.2)).map (fun x => x.1) = []) := by
          intro hc
          rw [List.append_eq_nil] at hc
          obtain ⟨h1, h2⟩ := hc
          rw [List.map_eq_nil_iff] at h1 h2
          refine hst ((filterPartition_append_eq_nil (fun x => x.2) _).mp ?_)
          rw [h1, h2]; rfl
        simp [if_neg hmapnil, if_neg hst]

theorem diff_anchor_lines_order_witness :
    diff_anchor_lines "@@ -1 +4 @@\n+x\n y" = [4, 5] :=
  ((diff_anchor_lines_order.2 "@@ -1 +4 @@\n+x\n y").2 (by decide)).trans (by decide)

/-- C6: the code's own docstring promises "Always >= 1", but a
deleted-file hunk whose after-side start is `0` followed by a
"\ No newline at end of file" marker makes `diff_anchor_lines`
return `[0]`, a line number below 1. -/
theorem diff_anchor_lines_zero_bug :
    diff_anchor_lines "@@ -1 +0,0 @@\n-foo\n\\ No newline at end of file" = [0] ∧
    ¬ (∀ x ∈ diff_anchor_lines "@@ -1 +0,0 @@\n-foo\n\\ No newline at end of file",
        1 ≤ x) := by
  constructor
  · decide
  · decide

/-! ### SourceSectionizer: `extract_source_sections` (review_bot/main.py, 165-181) -/

/-- The tail `\s*---\s*$` of the section-marker regex. -/
def restIsDashesEnd (cs : List Char) : Bool :=
  match cs.dropWhile pyIsSpace with
  | a :: b :: c :: t => a = '-' && b = '-' && c = '-' && t.all pyIsSpace
  | _ => false

/-- The lazy group `(.+?)` of the section-marker regex: the shortest
non-empty prefix whose remainder matches `\s*---\s*$`. -/
def findTitle (g : List Char) : List Char → Option (List Char)
  | [] => none
  | c :: t => if restIsDashesEnd t then some (g ++ [c]) else findTitle (g ++ [c]) t

/-- Case-insensitive literal prefix match, returning the remainder. -/
def ciPrefixPop : List Char → List Char → Option (List Char)
  | [], rest => some rest
  | l :: ls, c :: rest => if c.toLower = l then ciPrefixPop ls rest else none
  | _ :: _, [] => none

/-- Match `SECTION_TAG.match(line)` (`^\s*#\s*---\s*section:\s*(.+?)\s*---\s*$`,
case-insensitive), returning `group(1).strip()` on success. -/
def sectionTagTitle (line : String) : Option String :=
  match line.data.dropWhile pyIsSpace with
  | h :: r1 =>
    if h = '#' then
      match r1.dropWhile pyIsSpace with
      | a :: b :: c :: r3 =>
        if a = '-' && b = '-' && c = '-' then
          match ciPrefixPop "section:".data (r3.dropWhile pyIsSpace) with
          | some r5 => (findTitle [] r5).map (fun g => ⟨pyStripChars g⟩)
          | none => none
        else none
      | _ => none
    else none
  | _ => none

/-- The marker scan of `extract_source_sections`: 1-based line numbers of
lines matching `SECTION_TAG`, paired with the stripped titles. -/
def marksFrom : List String → Nat → List (String × Nat)
  | [], _ => []
  | l :: ls, i =>
    match sectionTagTitle l with
    | some t => (t, i) :: marksFrom ls (i + 1)
    | none => marksFrom ls (i + 1)

/-- The span construction of `extract_source_sections`: each section ends
just before the next marker, the last one at the last line. -/
def spansOf : List (String × Nat) → Nat → List (String × Nat × Nat)
  | [], _ => []
  | [(t, s)], n => [(t, s, n)]
  | (t, s) :: (t2, s2) :: rest, n => (t, s, s2 - 1) :: spansOf ((t2, s2) :: rest) n

/-- Function `extract_source_sections` (review_bot/main.py, lines 167-181). -/
def extract_source_sections (text : String) : List (String × Nat × Nat) :=
  let lines := pySplitlines text
  let spans := spansOf (marksFrom lines 1) lines.length
  if spans = [] then [("entire-file", 1, lines.length)] else spans

theorem marksFrom_length (ls : List String) (i : Nat) :
    (marksFrom ls i).length =
      (ls.filter (fun l => (sectionTagTitle l).isSome)).length := by
  induction ls generalizing i with
  | nil => rfl
  | cons l ls ih =>
    simp only [marksFrom, List.filter_cons]
    cases h : sectionTagTitle l with
    | some t => simp [h, ih]
    | none => simp [h, ih]

theorem marksFrom_bounds (ls : List String) (i : Nat) :
    ∀ m ∈ marksFrom ls i, i ≤ m.2 ∧ m.2 < i + ls.length := by
  induction ls generalizing i with
  | nil => intro m hm; simp [marksFrom] at hm
  | cons l ls ih =>
    intro m hm
    simp only [marksFrom] at hm
    cases h : sectionTagTitle l with
    | some t =>
      rw [h] at hm
      rcases List.mem_cons.mp hm with h1 | h2
      · subst h1; simp
      · have := ih (i + 1) m h2
        constructor
        · omega
        · simp only [List.length_cons]; omega
    | none =>
      rw [h] at hm
      have := ih (i + 1) m hm
      constructor
      · omega
      · simp only [List.length_cons]; omega

theorem marksFrom_chain (ls : List String) (i : Nat) :
    List.Chain' (fun a b => a.2 < b.2) (marksFrom ls i) := by
  induction ls generalizing i with
  | nil => simp [marksFrom]
  | cons l ls ih =>
    simp only [marksFrom]
    cases h : sectionTagTitle l with
    | some t =>
      refine List.chain'_cons'.mpr ⟨?_, ih (i + 1)⟩
      intro b hb
      have hmem : b ∈ marksFrom ls (i + 1) := List.mem_of_mem_head? hb
      have := (marksFrom_bounds ls (i + 1) b hmem).1
      omega
    | none => exact ih (i + 1)

theorem spansOf_length (ms : List (String × Nat)) (n : Nat) :
    (spansOf ms n).length = ms.length := by
  induction ms with
  | nil => rfl
  | cons m rest ih =>
    cases m with
    | mk t s =>
      cases rest with
      | nil => rfl
      | cons m2 rest2 =>
        cases m2 with
        | mk t2 s2 => simp only [spansOf, List.length_cons] at ih ⊢; omega

theorem spansOf_bounds (ms : List (String × Nat)) (n : Nat)
    (hchain : List.Chain' (fun a b => a.2 < b.2) ms)
    (hub : ∀ m ∈ ms, 1 ≤ m.2 ∧ m.2 ≤ n) :
    ∀ sp ∈ spansOf ms n, 1 ≤ sp.2.1 ∧ sp.2.1 ≤ sp.2.2 := by
  induction ms with
  | nil => intro sp hsp; simp [spansOf] at hsp
  | cons m rest ih =>
    cases m with
    | mk t s =>
      cases rest with
      | nil =>
        intro sp hsp
        simp only [spansOf, List.mem_singleton] at hsp
        subst hsp
        have := hub (t, s) (by simp)
        exact ⟨this.1, this.2⟩
      | cons m2 rest2 =>
        cases m2 with
        | mk t2 s2 =>
          intro sp hsp
          simp only [spansOf, List.mem_cons] at hsp
          rcases hsp with h1 | h2
          · subst h1
            have hs := hub (t, s) (by simp)
            have hlt : s < s2 := (List.chain'_cons.mp hchain).1
            refine ⟨hs.1, ?_⟩
            simp only
            omega
          · exact ih (List.chain'_cons.mp hchain).2
              (fun m hm => hub m (List.mem_cons_of_mem _ hm)) sp h2

theorem spansOf_chain (ms : List (String × Nat)) (n : Nat)
    (hchain : List.Chain' (fun a b => a.2 < b.2) ms)
    (hub : ∀ m ∈ ms, 1 ≤ m.2 ∧ m.2 ≤ n) :
    List.Chain' (fun a b => a.2.2 < b.2.1) (spansOf ms n) := by
  induction ms with
  | nil => simp [spansOf]
  | cons m rest ih =>
    cases m with
    | mk t s =>
      cases rest with
      | nil => simp [spansOf]
      | cons m2 rest2 =>
        cases m2 with
        | mk t2 s2 =>
          simp only [spansOf]
          refine List.chain'_cons'.mpr ⟨?_, ?_⟩
          · intro b hb
            have hs2 : 1 ≤ s2 := (hub (t2, s2) (by simp)).1
            have hb21 : b.2.1 = s2 := by
              cases rest2 with
              | nil => simp [spansOf] at hb; subst hb; rfl
              | cons m3 rest3 =>
                cases m3 with
                | mk t3 s3 => simp [spansOf] at hb; subst hb; rfl
            rw [hb21]
            simp only
            omega
          · exact ih (List.chain'_cons.mp hchain).2
              (fun m hm => hub m (List.mem_cons_of_mem _ hm))

theorem splitLinesAux_ne_nil (cs : List Char) (acc : List Char)
    (h : cs ≠ [] ∨ acc ≠ []) : splitLinesAux cs acc false ≠ [] := by
  induction cs generalizing acc with
  | nil =>
    rcases h with h | h
    · exact absurd rfl h
    · simp only [splitLinesAux, List.isEmpty_iff]
      intro hc
      rw [if_neg h] at hc
      exact List.cons_ne_nil _ _ hc
  | cons c rest ih =>
    simp only [splitLinesAux, Bool.false_and, Bool.false_eq_true, if_false]
    by_cases h1 : c = '\r'
    · rw [if_pos h1]; exact List.cons_ne_nil _ _
    · rw [if_neg h1]
      by_cases h2 : isLineBreakChar c = true
      · rw [if_pos h2]; exact List.cons_ne_nil _ _
      · rw [if_neg h2]
        exact ih _ (Or.inr (List.cons_ne_nil _ _))

theorem pySplitlines_ne_nil (s : String) (hs : s ≠ "") : pySplitlines s ≠ [] := by
  refine splitLinesAux_ne_nil s.data [] (Or.inl ?_)
  intro hd
  apply hs
  cases s with
  | mk d => simp only at hd; subst hd; rfl

/-- C7 (amended): with `N >= 1` markers, `extract_source_sections` returns
exactly `N` sections with pairwise-disjoint, increasing line ranges, each
satisfying `1 <= startLine <= endLine`; with no markers it returns one
section spanning the whole file; and `1 <= startLine <= endLine` holds for
every section whenever the input text is non-empty (for empty text the
single fallback section is `("entire-file", 1, 0)`, see the
counterexample). -/
theorem extract_source_sections_spec (text : String) :
    (0 < ((pySplitlines text).filter (fun l => (sectionTagTitle l).isSome)).length →
      (extract_source_sections text).length =
        ((pySplitlines text).filter (fun l => (sectionTagTitle l).isSome)).length ∧
      List.Chain' (fun a b => a.2.2 < b.2.1) (extract_source_sections text) ∧
      ∀ sp ∈ extract_source_sections text, 1 ≤ sp.2.1 ∧ sp.2.1 ≤ sp.2.2) ∧
    (((pySplitlines text).filter (fun l => (sectionTagTitle l).isSome)).length = 0 →
      extract_source_sections text = [("entire-file", 1, (pySplitlines text).length)]) ∧
    (text ≠ "" →
      ∀ sp ∈ extract_source_sections text, 1 ≤ sp.2.1 ∧ sp.2.1 ≤ sp.2.2) := by
  have hmlen := marksFrom_length (pySplitlines text) 1
  have hub : ∀ m ∈ marksFrom (pySplitlines text) 1,
      1 ≤ m.2 ∧ m.2 ≤ (pySplitlines text).length := by
    intro m hm
    have := marksFrom_bounds (pySplitlines text) 1 m hm
    omega
  have hchain := marksFrom_chain (pySplitlines text) 1
  have hx : extract_source_sections text =
      if spansOf (marksFrom (pySplitlines text) 1) (pySplitlines text).length = []
      then [("entire-file", 1, (pySplitlines text).length)]
      else spansOf (marksFrom (pySplitlines text) 1) (pySplitlines text).length := rfl
  have hpos : 0 < ((pySplitlines text).filter
      (fun l => (sectionTagTitle l).isSome)).length →
      (extract_source_sections text).length =
        ((pySplitlines text).filter (fun l => (sectionTagTitle l).isSome)).length ∧
      List.Chain' (fun a b => a.2.2 < b.2.1) (extract_source_sections text) ∧
      ∀ sp ∈ extract_source_sections text, 1 ≤ sp.2.1 ∧ sp.2.1 ≤ sp.2.2 := by
    intro hN
    have hmsne : marksFrom (pySplitlines text) 1 ≠ [] := by
      intro hnil
      rw [hnil] at hmlen
      simp at hmlen
      omega
    have hspne : spansOf (marksFrom (pySplitlines text) 1)
        (pySplitlines text).length ≠ [] := by
      intro hnil
      have := spansOf_length (marksFrom (pySplitlines text) 1)
        (pySplitlines text).length
      rw [hnil] at this
      exact hmsne (List.eq_nil_of_length_eq_zero this.symm)
    rw [hx, if_neg hspne]
    refine ⟨?_, ?_, ?_⟩
    · rw [spansOf_length, hmlen]
    · exact spansOf_chain _ _ hchain hub
    · exact spansOf_bounds _ _ hchain hub
  refine ⟨hpos, ?_, ?_⟩
  · intro hN
    have hms : marksFrom (pySplitlines text) 1 = [] := by
      rw [hN] at hmlen
      exact List.eq_nil_of_length_eq_zero hmlen
    rw [hx, hms]
    simp [spansOf]
  · intro hne sp hsp
    by_cases hN : ((pySplitlines text).filter
        (fun l => (sectionTagTitle l).isSome)).length = 0
    · have hms : marksFrom (pySplitlines text) 1 = [] := by
        rw [hN] at hmlen
        exact List.eq_nil_of_length_eq_zero hmlen
      rw [hx, hms] at hsp
      simp [spansOf] at hsp
      subst hsp
      have hlpos : 0 < (pySplitlines text).length :=
        List.length_pos.mpr (pySplitlines_ne_nil text hne)
      exact ⟨le_refl 1, hlpos⟩
    · exact (hpos (Nat.pos_of_ne_zero hN)).2.2 sp hsp

theorem extract_source_sections_spec_witness :
    (0 < ((pySplitlines "# --- section: a ---\nx\n# --- section: b ---\ny").filter
        (fun l => (sectionTagTitle l).isSome)).length ∧
      (extract_source_sections "# --- section: a ---\nx\n# --- section: b ---\ny").length =
        ((pySplitlines "# --- section: a ---\nx\n# --- section: b ---\ny").filter
          (fun l => (sectionTagTitle l).isSome)).length ∧
      List.Chain' (fun a b => a.2.2 < b.2.1)
        (extract_source_sections "# --- section: a ---\nx\n# --- section: b ---\ny") ∧
      ∀ sp ∈ extract_source_sections "# --- section: a ---\nx\n# --- section: b ---\ny",
        1 ≤ sp.2.1 ∧ sp.2.1 ≤ sp.2.2) ∧
    ("# --- section: a ---\nx\n# --- section: b ---\ny" ≠ "" ∧
      ∀ sp ∈ extract_source_sections "# --- section: a ---\nx\n# --- section: b ---\ny",
        1 ≤ sp.2.1 ∧ sp.2.1 ≤ sp.2.2) :=
  ⟨⟨by decide,
    (extract_source_sections_spec "# --- section: a ---\nx\n# --- section: b ---\ny").1
      (by decide)⟩,
   ⟨by decide,
    (extract_source_sections_spec "# --- section: a ---\nx\n# --- section: b ---\ny").2.2
      (by decide)⟩⟩

/-- C7 counterexample: on the empty input text the single fallback section
is `("entire-file", 1, 0)`, which violates `1 <= startLine <= endLine`. -/
theorem extract_source_sections_empty_cex :
    extract_source_sections "" = [("entire-file", 1, 0)] ∧
    ¬ (∀ sp ∈ extract_source_sections "", 1 ≤ sp.2.1 ∧ sp.2.1 ≤ sp.2.2) :=
  ⟨by decide, by decide⟩

/-! ### Built-in rule checks: `static_suggestions_for_section`
    (review_bot/main.py, lines 183-233) -/

/-- Literal prefix match, returning the remainder. -/
def litPop : List Char → List Char → Option (List Char)
  | [], rest => some rest
  | l :: ls, c :: rest => if c = l then litPop ls rest else none
  | _ :: _, [] => none

/-- Pattern `\s*\(` at the head of the list. -/
def spacesThenParen : List Char → Bool
  | [] => false
  | c :: rest => if c = '(' then true else if pyIsSpace c then spacesThenParen rest else false

/-- Search `re.search(r"\b<word>\s*\(", line)` for a word starting with a word
character: some position is preceded by nothing or a non-word character
and starts `<word>`, followed by optional whitespace and `(`. -/
def searchWordParenAux (word : List Char) : Option Char → List Char → Bool
  | _, [] => false
  | prev, c :: rest =>
    ((match prev with | none => true | some p => !pyIsWord p) &&
      (match litPop word (c :: rest) with
       | some r => spacesThenParen r
       | none => false)) ||
    searchWordParenAux word (some c) rest

/-- Search `re.search(r"\beval\s*\(", line)`. -/
def reSearchEval (line : String) : Bool := searchWordParenAux "eval".data none line.data

/-- Search `re.search(r"\bopen\s*\(", line)`. -/
def reSearchOpenCall (line : String) : Bool := searchWordParenAux "open".data none line.data

/-- Run a position matcher at every suffix (Python `re.search`). -/
def searchAnywhere (f : List Char → Bool) : List Char → Bool
  | [] => false
  | c :: rest => f (c :: rest) || searchAnywhere f rest

/-- Pattern `except\s+Exception\s*:` matching at the head of the list. -/
def exceptMatchAt (cs : List Char) : Bool :=
  match litPop "except".data cs with
  | some r =>
    match r with
    | c :: r2 =>
      if pyIsSpace c then
        match litPop "Exception".data (r2.dropWhile pyIsSpace) with
        | some r3 =>
          match r3.dropWhile pyIsSpace with
          | c2 :: _ => c2 = ':'
          | [] => false
        | none => false
      else false
    | [] => false
  | none => false

/-- Search `re.search(r"except\s+Exception\s*:", line)`. -/
def reSearchExcept (line : String) : Bool := searchAnywhere exceptMatchAt line.data

/-- The eval-fix markdown of check 1 (source lines 193-201). -/
def evalSuggestionMd (path : String) : String :=
  "## " ++ path ++ "\n### Replace unsafe eval() with ast.literal_eval\n" ++
  "Using `eval` is a code execution risk. Prefer `ast.literal_eval` with error handling.\n\n" ++
  "```suggestion\n" ++ "try:\n" ++ "    import ast\n" ++
  "    return ast.literal_eval(src)\n" ++ "except (ValueError, SyntaxError):\n" ++
  "    return \x7b\x7d\n" ++ "```\n"

/-- The yaml-fix markdown of check 2 (source lines 206-211); the odd
characters reproduce the source file's own mojibake em-dash. -/
def yamlSuggestionMd (path : String) : String :=
  "## " ++ path ++ "\n### Use yaml.safe_load\n" ++
  "Avoid `yaml.load` without SafeLoader\u00E2\u20AC\u201Duse `yaml.safe_load`.\n\n" ++
  "```suggestion\n" ++ "import yaml\n" ++ "return yaml.safe_load(text)\n" ++ "```\n"

/-- The broad-except markdown of check 3 (source lines 216-221). -/
def exceptSuggestionMd (path : String) : String :=
  "## " ++ path ++ "\n### Catch specific exceptions\n" ++
  "Catching `Exception` hides real failures.\n\n" ++
  "```suggestion\n" ++ "except FileNotFoundError:\n" ++ "    return \x7b\x7d\n" ++ "```\n"

/-- The context-manager markdown of check 4 (source lines 226-230). -/
def openSuggestionMd (path : String) : String :=
  "## " ++ path ++ "\n### Use a context manager for file I/O\n\n" ++
  "```suggestion\n" ++ "with open(path, \x27r\x27, encoding=\x27utf-8\x27) as f:\n" ++
  "    data = f.read()\n" ++ "```\n"

/-- The four checks applied to one line (in source order), `idx` being the
1-based file line number of the line and `text` the whole section. -/
def checksForLine (path : String) (text : List String) (idx : Nat) (line : String) :
    List (String × Nat × Option Nat) :=
  (if reSearchEval line then [(evalSuggestionMd path, idx, some idx)] else []) ++
  (if pyContains line "yaml.load" &&
      !containsSub ((text.map String.data).flatten) "SafeLoader".data then
    [(yamlSuggestionMd path, idx, none)] else []) ++
  (if reSearchExcept line then [(exceptSuggestionMd path, idx, none)] else []) ++
  (if reSearchOpenCall line && !(text.any (fun l => pyContains l "with open")) then
    [(openSuggestionMd path, idx, none)] else [])

/-- Loop `for idx, line in enumerate(text, start)` over the section. -/
def staticLoop (path : String) (text : List String) :
    List String → Nat → List (String × Nat × Option Nat)
  | [], _ => []
  | l :: ls, idx => checksForLine path text idx l ++ staticLoop path text ls (idx + 1)

/-- Function `static_suggestions_for_section` (review_bot/main.py, lines 183-233). -/
def static_suggestions_for_section (path : String) (text : List String) (start : Nat) :
    List (String × Nat × Option Nat) :=
  staticLoop path text text start

set_option maxRecDepth 8000 in
/-- C5 counterexample: a section consisting of a function definition with
a mutable default argument (the `join_words` line of test.py) produces NO
match triple: the catalogue has no mutable-default-argument check. -/
theorem static_suggestions_mutable_default_cex :
    static_suggestions_for_section "test.py"
      ["def join_words(words: list[str] = [], sep: str = \" \") -> str:"] 61 = [] := by
  decide

set_option maxRecDepth 8000 in
/-- C5 (amended): the built-in catalogue covers four checks - unsafe eval,
yaml.load without SafeLoader, broad `except Exception`, and open() without
a context manager - each producing a match triple with an exact target
line; a mutable-default-argument parameter is not checked and yields no
triple (here: lines 10-13 each yield their check's triple, line 14 with
the mutable default yields none). -/
theorem static_suggestions_catalogue :
    (static_suggestions_for_section "f.py"
        ["return eval(src)", "data = yaml.load(text)", "except Exception:",
         "f = open(path)",
         "def join_words(words: list[str] = [], sep: str = \" \") -> str:"] 10).map
        (fun t => (t.2.1, t.2.2)) =
      [(10, some 10), (11, none), (12, none), (13, none)] ∧
    (static_suggestions_for_section "f.py"
        ["return eval(src)", "data = yaml.load(text)", "except Exception:",
         "f = open(path)",
         "def join_words(words: list[str] = [], sep: str = \" \") -> str:"] 10).map
        (fun t => t.1) =
      [evalSuggestionMd "f.py", yamlSuggestionMd "f.py", exceptSuggestionMd "f.py",
       openSuggestionMd "f.py"] := by
  constructor
  · decide
  · decide

/-! ### ReviewDocumentParser: `split_llm_parts` (review_bot/main.py, 129-162) -/

/-- A changed file as the pipeline sees it: its path and (possibly empty)
"after"-side content. -/
structure PRFile where
  path : String
  content : String

/-- Match `FILE_H.match(line.strip())` (`^##\s+(.+\.py)\s*$`), returning
`group(1).strip()` on success.  The greedy group runs to the last `.py`;
on a stripped line the stripped group is the text after the heading
marker's whitespace (with the degenerate `##  .py` case giving `.py`). -/
def fileHeadMatch (line : String) : Option String :=
  match pyStripChars line.data with
  | a :: b :: rest =>
    if a = '#' && b = '#' then
      match rest with
      | c :: _ =>
        if pyIsSpace c then
          let sp := (rest.takeWhile pyIsSpace).length
          let body := rest.dropWhile pyIsSpace
          if ['.', 'p', 'y'].isSuffixOf body && (4 ≤ body.length || 2 ≤ sp) then
            some ⟨body⟩
          else none
        else none
      | [] => none
    else none
  | _ => none

/-- Match `PART_H.match(ln.strip())` (`^###\s+(.+)\s*$`) as a Boolean. -/
def partHeadMatch (line : String) : Bool :=
  match pyStripChars line.data with
  | a :: b :: c :: d :: _ => a = '#' && b = '#' && c = '#' && pyIsSpace d
  | _ => false

/-- One step of the file-heading scan of `split_llm_parts` (lines
137-143); the state is `(sections, cur, buf)`. -/
def blockStep (st : List (String × List String) × Option String × List String)
    (line : String) : List (String × List String) × Option String × List String :=
  match fileHeadMatch line with
  | some name =>
    let sections :=
      match st.2.1 with
      | some c => if c ≠ "" && st.2.2 ≠ [] then alInsert st.1 c st.2.2 else st.1
      | none => st.1
    (sections, some name, [line])
  | none =>
    match st.2.1 with
    | some c => if c ≠ "" then (st.1, st.2.1, st.2.2 ++ [line]) else st
    | none => st

/-- The file-block dictionary built by `split_llm_parts` (lines 135-144). -/
def splitBlocks (md : String) : List (String × List String) :=
  let st := (pySplitlines md).foldl blockStep ([], none, [])
  match st.2.1 with
  | some c => if c ≠ "" && st.2.2 ≠ [] then alInsert st.1 c st.2.2 else st.1
  | none => st.1

/-- One step of the sub-heading split (lines 153-160); state `(parts, curp)`.
On a non-heading line with empty `curp` the source appends to a discarded
temporary (`(curp if curp else []).append(ln)`), so the state is unchanged. -/
def partStep (st : List (List String) × List String) (ln : String) :
    List (List String) × List String :=
  if partHeadMatch ln then
    (if st.2 ≠ [] then st.1 ++ [st.2] else st.1, [ln])
  else if st.2 ≠ [] then (st.1, st.2 ++ [ln])
  else st

/-- The sub-heading split of a file block (lines 153-160). -/
def partsSplit (key : List String) : List (List String) :=
  let st := key.foldl partStep ([], [])
  if st.2 ≠ [] then st.1 ++ [st.2] else st.1

/-- The per-file part list of `split_llm_parts` (lines 148-161): the
block found by exact then case-insensitive path lookup, split at
sub-headings, or the placeholder part. -/
def perFileEntry (sections : List (String × List String))
    (lower : List (String × String)) (path : String) : List String :=
  let key :=
    let a := (alGet sections path).getD []
    if a ≠ [] then a
    else (alGet sections ((alGet lower (pyLower path)).getD "")).getD []
  if key = [] then ["## " ++ path ++ "\n_No explicit suggestions from model._"]
  else
    let ps := partsSplit key
    (if ps = [] then [key] else ps).map (fun p => pyStrip (pyJoin "\n" p))

/-- The `for f in files` loop of `split_llm_parts`. -/
def splitFold (sections : List (String × List String))
    (lower : List (String × String)) :
    List (String × List String) → List PRFile → List (String × List String)
  | per, [] => per
  | per, f :: fs =>
    splitFold sections lower (alInsert per f.path (perFileEntry sections lower f.path)) fs

/-- Function `split_llm_parts` (review_bot/main.py, lines 134-162). -/
def split_llm_parts (md : String) (files : List PRFile) :
    List (String × List String) :=
  let sections := splitBlocks md
  let lower := sections.foldl (fun m p => alInsert m (pyLower p.1) p.1) []
  splitFold sections lower [] files

set_option maxRecDepth 8000 in
/-- C4: the text of a file block that precedes the first sub-heading is
DISCARDED by `split_llm_parts`: the source appends such lines to a
temporary list that is immediately dropped (`(curp if curp else
[]).append(ln)`), so the block `## a.py / intro / ### Part / body` yields
only the part `### Part\nbody` and the line `intro` survives in no part,
contradicting the claim that it forms an implicit leading part. -/
theorem split_llm_parts_drops_leading_text :
    split_llm_parts "## a.py\nintro\n### Part\nbody" [PRFile.mk "a.py" ""] =
      [("a.py", ["### Part\nbody"])] ∧
    ∀ e ∈ split_llm_parts "## a.py\nintro\n### Part\nbody" [PRFile.mk "a.py" ""],
      ∀ part ∈ e.2, pyContains part "intro" = false := by
  constructor
  · decide
  · decide

theorem mem_alKeys_alInsert {β : Type} (m : List (String × β)) (k : String) (v : β)
    (p : String) : p ∈ alKeys (alInsert m k v) ↔ p ∈ alKeys m ∨ p = k := by
  by_cases hc : (alKeys m).contains k
  · have hk : k ∈ alKeys m := by simpa using hc
    rw [alInsert, if_pos hc]
    constructor
    · intro hp
      simp only [alKeys, List.map_map, List.mem_map, Function.comp] at hp
      obtain ⟨x, hx, hxe⟩ := hp
      by_cases hxk : x.1 = k
      · right; rw [← hxe]; simp [hxk]
      · left
        simp only [alKeys, List.mem_map]
        exact ⟨x, hx, by simpa [hxk] using hxe⟩
    · intro hp
      rcases hp with hp | hp
      · obtain ⟨x, hx, hxe⟩ := List.mem_map.mp hp
        simp only [alKeys, List.map_map, List.mem_map, Function.comp]
        refine ⟨x, hx, ?_⟩
        by_cases hxk : x.1 = k
        · simp [hxk, ← hxe]
        · rw [if_neg hxk]; exact hxe
      · subst hp
        obtain ⟨x, hx, hxk⟩ := List.mem_map.mp hk
        simp only [alKeys, List.map_map, List.mem_map, Function.comp]
        exact ⟨x, hx, by simp [hxk]⟩
  · rw [alInsert, if_neg hc]
    simp [alKeys]

theorem mem_alInsert_val {β : Type} (m : List (String × β)) (k : String) (v : β)
    (e : String × β) (he : e ∈ alInsert m k v) : e ∈ m ∨ e.2 = v := by
  by_cases hc : (alKeys m).contains k
  · rw [alInsert, if_pos hc] at he
    obtain ⟨x, hx, hxe⟩ := List.mem_map.mp he
    by_cases hxk : x.1 = k
    · right; rw [← hxe]; simp [hxk]
    · left; rw [← hxe]; simpa [hxk] using hx
  · rw [alInsert, if_neg hc] at he
    rcases List.mem_append.mp he with h | h
    · exact Or.inl h
    · right
      rw [List.mem_singleton.mp h]

theorem perFileEntry_ne_nil (sections : List (String × List String))
    (lower : List (String × String)) (path : String) :
    perFileEntry sections lower path ≠ [] := by
  have h : ∀ key : List String,
      (if key = [] then ["## " ++ path ++ "\n_No explicit suggestions from model._"]
       else
        (if partsSplit key = [] then [key] else partsSplit key).map
          (fun p => pyStrip (pyJoin "\n" p))) ≠ [] := by
    intro key
    by_cases hk : key = []
    · simp [hk]
    · simp only [if_neg hk]
      by_cases hps : partsSplit key = []
      · simp [hps]
      · simp [List.map_eq_nil_iff, hps]
  exact h _

theorem splitFold_keys (sections : List (String × List String))
    (lower : List (String × String)) (files : List PRFile)
    (acc : List (String × List String)) :
    ∀ p, p ∈ alKeys (splitFold sections lower acc files) ↔
      p ∈ alKeys acc ∨ p ∈ files.map PRFile.path := by
  induction files generalizing acc with
  | nil => simp [splitFold]
  | cons f fs ih =>
    intro p
    rw [splitFold, ih, mem_alKeys_alInsert]
    simp only [List.map_cons, List.mem_cons]
    tauto

theorem splitFold_vals (sections : List (String × List String))
    (lower : List (String × String)) (files : List PRFile)
    (acc : List (String × List String)) (hacc : ∀ e ∈ acc, e.2 ≠ []) :
    ∀ e ∈ splitFold sections lower acc files, e.2 ≠ [] := by
  induction files generalizing acc with
  | nil => simpa [splitFold] using hacc
  | cons f fs ih =>
    rw [splitFold]
    apply ih
    intro e he
    rcases mem_alInsert_val _ _ _ e he with h | h
    · exact hacc e h
    · rw [h]; exact perFileEntry_ne_nil sections lower f.path

/-- C10: the key set of the mapping returned by `split_llm_parts` is
exactly the set of paths of the input file list (headings for other paths
produce no entry), and every value is a non-empty list of parts. -/
theorem split_llm_parts_keys_values (md : String) (files : List PRFile) :
    (∀ p, p ∈ alKeys (split_llm_parts md files) ↔ p ∈ files.map PRFile.path) ∧
    ∀ e ∈ split_llm_parts md files, e.2 ≠ [] := by
  constructor
  · intro p
    unfold split_llm_parts
    rw [splitFold_keys]
    simp [alKeys]
  · intro e he
    unfold split_llm_parts at he
    exact splitFold_vals _ _ files [] (by simp) e he

set_option maxRecDepth 8000 in
theorem split_llm_parts_keys_values_witness :
    ("a.py" ∈ alKeys (split_llm_parts "## a.py\n### P\nbody\n## zzz.py\nstuff"
        [PRFile.mk "a.py" "", PRFile.mk "b.py" ""]) ↔
      "a.py" ∈ ([PRFile.mk "a.py" "", PRFile.mk "b.py" ""].map PRFile.path)) ∧
    (∀ e ∈ split_llm_parts "## a.py\n### P\nbody\n## zzz.py\nstuff"
        [PRFile.mk "a.py" "", PRFile.mk "b.py" ""], e.2 ≠ []) :=
  ⟨(split_llm_parts_keys_values "## a.py\n### P\nbody\n## zzz.py\nstuff"
      [PRFile.mk "a.py" "", PRFile.mk "b.py" ""]).1 "a.py",
   (split_llm_parts_keys_values "## a.py\n### P\nbody\n## zzz.py\nstuff"
      [PRFile.mk "a.py" "", PRFile.mk "b.py" ""]).2⟩

/-! ### AnchorMapper / ActionabilityFilter: `ensure_actionable_parts`
    (review_bot/main.py, 235-289).  The pull-request file metadata fetched
    from the boundary is passed in as the `patchByPath` table. -/

/-- The `SUG_RE` pattern (three backticks, `suggestion` case-insensitive,
then a word boundary) matching at the head of the list. -/
def sugMatchAt (cs : List Char) : Bool :=
  match cs with
  | a :: b :: c :: rest =>
    a = '`' && b = '`' && c = '`' &&
      (match ciPrefixPop "suggestion".data rest with
       | some r =>
         match r with
         | [] => true
         | c2 :: _ => !pyIsWord c2
       | none => false)
  | _ => false

/-- Search `SUG_RE.search(part)`. -/
def reSearchSug (s : String) : Bool := searchAnywhere sugMatchAt s.data

/-- Python `abs(a - b)` on line numbers. -/
def adist (a b : Nat) : Nat := ((a : Int) - (b : Int)).natAbs

/-- Python `min(anchors, key=lambda a: abs(a - target)) if anchors else 1`:
Python `min` keeps the first element attaining the minimum key, in list
order (a later element replaces the best only with a strictly smaller key). -/
def pyMinByDist (target : Nat) : List Nat → Nat
  | [] => 1
  | a :: rest =>
    rest.foldl (fun best x => if adist x target < adist best target then x else best) a

/-- The missing-suggestion repair of `ensure_actionable_parts`
(lines 262-266): append a fabricated suggestion block when absent. -/
def fabricateSuggestion (lines : List String) (line : Nat) (part : String) : String :=
  if reSearchSug part then part
  else
    let current :=
      if 1 ≤ line ∧ line ≤ lines.length then (lines.get? (line - 1)).getD "" else ""
    let newLine := (if pyStrip current ≠ "" then current else "#") ++
      (if pyContains current "review-bot" = false then "  # review-bot" else "")
    part ++ "\n\n```suggestion\n" ++ newLine ++ "\n```"

/-- Loop 1 of `ensure_actionable_parts` (lines 258-267): every part from
the review document is anchored at `anchors[0] if anchors else 1`. -/
def processLlmParts (anchors : List Nat) (lines : List String) :
    List String → List (String × Nat × Option Nat)
  | [] => []
  | part :: rest =>
    (fabricateSuggestion lines (anchors.headD 1) part, anchors.headD 1, none) ::
      processLlmParts anchors lines rest

/-- Loop 2 of `ensure_actionable_parts` (lines 269-279): static findings
anchor exactly on the risky line when it is a diff anchor, otherwise on
the nearest anchor. -/
def processStatic (path : String) (lines : List String) (text : String)
    (anchors : List Nat) : List (String × Nat × Option Nat) :=
  (extract_source_sections text).flatMap (fun sec =>
    let sect := (lines.drop (sec.2.1 - 1)).take (sec.2.2 - (sec.2.1 - 1))
    (static_suggestions_for_section path sect sec.2.1).map (fun e =>
      if anchors.contains e.2.1 then e
      else (e.1, pyMinByDist e.2.1 anchors, none)))

/-- The per-file body of `ensure_actionable_parts` (lines 250-288),
including the guarantee of at least one part (lines 282-286). -/
def processFile (patchByPath : List (String × String))
    (perLlm : List (String × List String)) (f : PRFile) :
    List (String × Nat × Option Nat) :=
  let lines := pySplitlines f.content
  let anchors := diff_anchor_lines ((alGet patchByPath f.path).getD "")
  let parts :=
    processLlmParts anchors lines ((alGet perLlm f.path).getD []) ++
    processStatic f.path lines f.content anchors
  if parts = [] then
    let line := anchors.headD 1
    let current :=
      if 1 ≤ line ∧ line ≤ lines.length then (lines.get? (line - 1)).getD "" else ""
    let newLine := (if pyStrip current ≠ "" then current else "#") ++
      (if pyContains current "review-bot" = false then "  # review-bot" else "")
    [("## " ++ f.path ++ "\n_No issues detected._\n\n```suggestion\n" ++ newLine ++ "\n```",
      line, none)]
  else parts

/-- Function `ensure_actionable_parts` (review_bot/main.py, lines 236-289). -/
def ensure_actionable_parts (patchByPath : List (String × String))
    (files : List PRFile) (perLlm : List (String × List String)) :
    List (String × List (String × Nat × Option Nat)) :=
  files.foldl (fun out f => alInsert out f.path (processFile patchByPath perLlm f)) []

theorem processLlmParts_lines (anchors : List Nat) (lines : List String)
    (parts : List String) :
    (processLlmParts anchors lines parts).map (fun t => t.2.1) =
      List.replicate parts.length (anchors.headD 1) := by
  induction parts with
  | nil => rfl
  | cons p rest ih => simp [processLlmParts, ih, List.replicate_succ]

/-- C2 (amended): for a file whose parts come from the review document,
EVERY part is anchored at the first candidate of the file's anchor list
(`anchors[0]`, or 1 when empty); candidates beyond the first are never
used for document parts (the positional i-th-part/i-th-candidate rule of
the claim is not what the code does, see the counterexample). -/
theorem llm_parts_all_first_anchor (patchByPath : List (String × String))
    (perLlm : List (String × List String)) (f : PRFile) :
    ((processFile patchByPath perLlm f).map (fun t => t.2.1)).take
        ((alGet perLlm f.path).getD []).length =
      List.replicate ((alGet perLlm f.path).getD []).length
        ((diff_anchor_lines ((alGet patchByPath f.path).getD "")).headD 1) := by
  unfold processFile
  by_cases hnil :
      processLlmParts (diff_anchor_lines ((alGet patchByPath f.path).getD ""))
          (pySplitlines f.content) ((alGet perLlm f.path).getD []) ++
        processStatic f.path (pySplitlines f.content) f.content
          (diff_anchor_lines ((alGet patchByPath f.path).getD "")) = []
  · have h1 : processLlmParts (diff_anchor_lines ((alGet patchByPath f.path).getD ""))
        (pySplitlines f.content) ((alGet perLlm f.path).getD []) = [] :=
      (List.append_eq_nil.mp hnil).1
    have h2 : ((alGet perLlm f.path).getD []).length = 0 := by
      have := congrArg List.length (processLlmParts_lines
        (diff_anchor_lines ((alGet patchByPath f.path).getD ""))
        (pySplitlines f.content) ((alGet perLlm f.path).getD []))
      rw [h1] at this
      simpa using this.symm
    simp [hnil, h2]
  · simp only [if_neg hnil, List.map_append]
    rw [List.take_append_eq_append_take]
    have hlen : ((processLlmParts (diff_anchor_lines ((alGet patchByPath f.path).getD ""))
        (pySplitlines f.content) ((alGet perLlm f.path).getD [])).map
          (fun t => t.2.1)).length = ((alGet perLlm f.path).getD []).length := by
      rw [processLlmParts_lines]
      simp
    rw [List.take_of_length_le (le_of_eq hlen), hlen, Nat.sub_self, List.take_zero,
      List.append_nil, processLlmParts_lines]

set_option maxRecDepth 8000 in
/-- C2 counterexample: two document parts with candidates `[5, 9]`: the
code anchors BOTH parts at candidate 5 (`anchors[0]`), while the claim's
positional rule would anchor the second (i = 1) part at candidate 9. -/
theorem ensure_actionable_positional_cex :
    ensure_actionable_parts [("g.py", "@@ -5 +5 @@\n+a\n@@ -9 +9 @@\n+b")]
        [PRFile.mk "g.py" "c1\nc2"]
        [("g.py", ["p1\n```suggestion\nx\n```", "p2\n```suggestion\ny\n```"])] =
      [("g.py", [("p1\n```suggestion\nx\n```", 5, none),
                 ("p2\n```suggestion\ny\n```", 5, none)])] ∧
    diff_anchor_lines "@@ -5 +5 @@\n+a\n@@ -9 +9 @@\n+b" = [5, 9] ∧
    (5 : Nat) ≠ 9 := by
  refine ⟨by decide, by decide, by decide⟩

theorem foldMinByDist_split (target : Nat) (rest : List Nat) (init : Nat) :
    ∃ l1 l2,
      init :: rest = l1 ++
        (rest.foldl (fun best x => if adist x target < adist best target then x else best)
          init) :: l2 ∧
      (∀ a ∈ init :: rest,
        adist (rest.foldl (fun best x => if adist x target < adist best target then x
          else best) init) target ≤ adist a target) ∧
      (∀ a ∈ l1,
        adist (rest.foldl (fun best x => if adist x target < adist best target then x
          else best) init) target < adist a target) := by
  induction rest generalizing init with
  | nil =>
    refine ⟨[], [], by simp, ?_, by simp⟩
    intro a ha
    rw [List.mem_singleton.mp ha]
    simp
  | cons x rest ih =>
    simp only [List.foldl_cons]
    by_cases hx : adist x target < adist init target
    · rw [if_pos hx]
      obtain ⟨l1, l2, hsplit, hmin, hstrict⟩ := ih x
      refine ⟨init :: l1, l2, by rw [List.cons_append, ← hsplit], ?_, ?_⟩
      · intro a ha
        rcases List.mem_cons.mp ha with h | h
        · subst h
          exact le_of_lt (lt_of_le_of_lt (hmin x (by simp)) hx)
        · exact hmin a h
      · intro a ha
        rcases List.mem_cons.mp ha with h | h
        · subst h
          exact lt_of_le_of_lt (hmin x (by simp)) hx
        · exact hstrict a h
    · rw [if_neg hx]
      obtain ⟨l1, l2, hsplit, hmin, hstrict⟩ := ih init
      cases l1 with
      | nil =>
        simp only [List.nil_append] at hsplit
        have hr : rest.foldl (fun best x => if adist x target < adist best target then x
            else best) init = init := (List.cons.injEq _ _ _ _).mp hsplit |>.1.symm
        have hl2 : l2 = rest := (List.cons.injEq _ _ _ _).mp hsplit |>.2.symm
        refine ⟨[], x :: rest, by simp [hr], ?_, by simp⟩
        intro a ha
        rcases List.mem_cons.mp ha with h | h
        · subst h; rw [hr]
        · rcases List.mem_cons.mp h with h2 | h2
          · subst h2; rw [hr]; omega
          · exact hmin a (List.mem_cons_of_mem _ h2)
      | cons b l1' =>
        simp only [List.cons_append] at hsplit
        have hb : b = init := ((List.cons.injEq _ _ _ _).mp hsplit).1.symm
        have hrest : rest = l1' ++ (rest.foldl (fun best x =>
            if adist x target < adist best target then x else best) init) :: l2 :=
          ((List.cons.injEq _ _ _ _).mp hsplit).2
        have hstrictinit : adist (rest.foldl (fun best x =>
            if adist x target < adist best target then x else best) init) target <
            adist init target := by
          have := hstrict b (by simp)
          rwa [hb] at this
        refine ⟨init :: x :: l1', l2, ?_, ?_, ?_⟩
        · rw [List.cons_append, List.cons_append, ← hrest]
        · intro a ha
          rcases List.mem_cons.mp ha with h | h
          · subst h; exact le_of_lt hstrictinit
          · rcases List.mem_cons.mp h with h2 | h2
            · subst h2; omega
            · exact hmin a (List.mem_cons_of_mem _ h2)
        · intro a ha
          rcases List.mem_cons.mp ha with h | h
          · subst h; exact hstrictinit
          · rcases List.mem_cons.mp h with h2 | h2
            · subst h2; omega
            · exact hstrict a (List.mem_cons_of_mem _ h2)

/-- C3 (amended): the nearest-anchor fallback always picks a candidate of
minimum absolute distance to the rule-derived line, but a tie between
equidistant candidates is broken by CANDIDATE-LIST ORDER (the first
minimiser in the adds-then-context candidate order, as Python `min`
does), not by the smaller line number (see the counterexample). -/
theorem pyMinByDist_spec (target : Nat) (anchors : List Nat) (h : anchors ≠ []) :
    ∃ l1 l2, anchors = l1 ++ pyMinByDist target anchors :: l2 ∧
      (∀ a ∈ anchors, adist (pyMinByDist target anchors) target ≤ adist a target) ∧
      (∀ a ∈ l1, adist (pyMinByDist target anchors) target < adist a target) := by
  cases anchors with
  | nil => exact absurd rfl h
  | cons a rest => exact foldMinByDist_split target rest a

theorem pyMinByDist_spec_witness :
    ([7, 3] : List Nat) ≠ [] ∧
    (∃ l1 l2, ([7, 3] : List Nat) = l1 ++ pyMinByDist 5 [7, 3] :: l2 ∧
      (∀ a ∈ ([7, 3] : List Nat), adist (pyMinByDist 5 [7, 3]) 5 ≤ adist a 5) ∧
      (∀ a ∈ l1, adist (pyMinByDist 5 [7, 3]) 5 < adist a 5)) :=
  ⟨by decide, pyMinByDist_spec 5 [7, 3] (by decide)⟩

set_option maxRecDepth 8000 in
/-- C3 counterexample: the rule-derived line 5 (an `eval` call) lies
outside the candidate list `[7, 3]` (adds-then-context order); candidates
7 and 3 are equidistant from 5, yet the code anchors at 7, not at the
smaller line number 3 as the claim requires. -/
theorem ensure_actionable_nearest_tie_cex :
    ensure_actionable_parts [("f.py", "@@ -3 +3 @@\n x3\n@@ -7 +7 @@\n+y7")]
        [PRFile.mk "f.py" "a\nb\nc\nd\nx = eval(src)"] [] =
      [("f.py", [(evalSuggestionMd "f.py", 7, none)])] ∧
    diff_anchor_lines "@@ -3 +3 @@\n x3\n@@ -7 +7 @@\n+y7" = [7, 3] ∧
    adist 3 5 = adist 7 5 ∧ (3 : Nat) < 7 ∧ (7 : Nat) ≠ 3 := by
  refine ⟨by decide, by decide, by decide, by decide, by decide⟩

/-! ### Emission: `post_summary_review`, `post_inline_comment` and the
    fallback of `main` (review_bot/main.py, 110-127 and 308-330), plus the
    batch review of the earlier driver (.github/review_bot/main.py,
    71-118).  Sink acceptance of a posted comment is a boundary outcome,
    abstracted as a predicate on the posted data. -/

theorem string_data_append (a b : String) : (a ++ b).data = a.data ++ b.data := by
  cases a; cases b; rfl

/-- The inline-comment payload built by `post_inline_comment` (lines
114-120): body capped at 65,000 characters, `start_line` kept only when
`start_line <= line`. -/
structure InlineCommentPayload where
  body : String
  path : String
  line : Nat
  startLine : Option Nat

/-- Payload of `post_inline_comment` (review_bot/main.py, 114-120). -/
def post_inline_comment_payload (path : String) (line : Nat) (bodyMd : String)
    (startLine : Option Nat) : InlineCommentPayload :=
  { body := pySlice bodyMd 65000, path := path, line := line,
    startLine :=
      match startLine with
      | some s => if s ≤ line then some s else none
      | none => none }

/-- The review body posted by `post_summary_review` (lines 110-112). -/
def post_summary_review_body (bodyMd : String) : String := pySlice bodyMd 65000

/-- The fallback digest assembled by `main` (lines 322-327): the header,
then per file a `## path` block whose parts are joined by a horizontal
rule; blocks joined by blank lines.  The header characters reproduce the
source file's own mojibake robot emoji. -/
def fallbackDigest
    (actionable : List (String × List (String × Nat × Option Nat))) : String :=
  pyJoin "\n\n" ("### ðŸ¤– Review Bot (fallback)" ::
    actionable.map (fun e =>
      "## " ++ e.1 ++ "\n" ++ pyJoin "\n\n---\n\n" (e.2.map (fun t => t.1))))

/-- The posting loop of `main` (lines 316-320): how many inline comments
the sink accepted, `accept` being the boundary outcome per comment. -/
def postedCount (actionable : List (String × List (String × Nat × Option Nat)))
    (accept : String → String × Nat × Option Nat → Bool) : Nat :=
  (actionable.flatMap (fun e => e.2.map (fun t => accept e.1 t))).count true

/-- The conditional fallback note of `main` (lines 322-328): a single
issue comment with the digest capped at 65,000 characters, emitted exactly
when zero inline comments were accepted. -/
def fallbackNote (actionable : List (String × List (String × Nat × Option Nat)))
    (accept : String → String × Nat × Option Nat → Bool) : Option String :=
  if postedCount actionable accept = 0 then
    some (pySlice (fallbackDigest actionable) 65000)
  else none

/-- Function `first_added_line_from_patch` (.github/review_bot/main.py, 71-90). -/
def falScan : List String → Nat → Nat
  | [], head => max 1 head
  | ln :: rest, head =>
    match hunkAfterStart ln with
    | some h => falScan rest h
    | none =>
      if isAddLine ln then head
      else
        let h1 := if !startsWithLit ln ['-'] && !startsWithLit ln ['@', '@'] &&
            !startsWithLit ln ['+', '+', '+'] && !startsWithLit ln ['-', '-', '-']
          then head + 1 else head
        let h2 := if isAddLine ln then h1 + 1 else h1
        falScan rest h2

/-- Function `first_added_line_from_patch` (.github/review_bot/main.py, 71-90). -/
def first_added_line_from_patch (patch : String) : Nat :=
  if patch = "" then 1 else falScan (pySplitlines patch) 1

/-- One comment of the batch review (.github/review_bot/main.py, 99-110). -/
structure ReviewComment where
  path : String
  line : Nat
  body : String

/-- The comment assembly of `create_review_with_comments` (lines 98-110):
one comment per changed `.py` file with a suggestion, each body capped at
65,000 characters.  Files are `(filename, patch-or-empty)` pairs. -/
def buildReviewComments (files : List (String × String))
    (fileSuggestions : List (String × String)) : List ReviewComment :=
  files.filterMap (fun f =>
    if (alGet fileSuggestions f.1).isSome && ['.', 'p', 'y'].isSuffixOf f.1.data then
      some { path := f.1, line := first_added_line_from_patch f.2,
             body := pySlice ((alGet fileSuggestions f.1).getD "") 65000 }
    else none)

/-- The batch-review request payload (lines 112-117): summary body capped
at 65,000 characters, at most 50 comments. -/
structure ReviewPayload where
  body : String
  comments : List ReviewComment

/-- Payload of `create_review_with_comments` (lines 93-118). -/
def create_review_payload (summaryMd : String) (files : List (String × String))
    (fileSuggestions : List (String × String)) : ReviewPayload :=
  { body := pySlice summaryMd 65000,
    comments := (buildReviewComments files fileSuggestions).take 50 }

theorem pyJoin_contains_mem (sep : String) (L : List String) (s : String) (hs : s ∈ L) :
    s.data <:+: (pyJoin sep L).data := by
  induction L with
  | nil => simp at hs
  | cons x xs ih =>
    rcases List.mem_cons.mp hs with h | h
    · subst h
      cases xs with
      | nil => exact List.infix_refl _
      | cons y ys =>
        refine ⟨[], (sep ++ pyJoin sep (y :: ys)).data, ?_⟩
        simp [pyJoin, string_data_append]
    · cases xs with
      | nil => simp at h
      | cons y ys =>
        refine (ih h).trans ⟨(x ++ sep).data, [], ?_⟩
        simp [pyJoin, string_data_append]

theorem part_infix_fallbackDigest
    (actionable : List (String × List (String × Nat × Option Nat)))
    (e : String × List (String × Nat × Option Nat)) (he : e ∈ actionable)
    (t : String × Nat × Option Nat) (ht : t ∈ e.2) :
    t.1.data <:+: (fallbackDigest actionable).data := by
  have h1 : t.1.data <:+: (pyJoin "\n\n---\n\n" (e.2.map (fun t => t.1))).data :=
    pyJoin_contains_mem _ _ _ (List.mem_map_of_mem _ ht)
  have h2 : (pyJoin "\n\n---\n\n" (e.2.map (fun t => t.1))).data <:+:
      ("## " ++ e.1 ++ "\n" ++ pyJoin "\n\n---\n\n" (e.2.map (fun t => t.1))).data := by
    refine ⟨("## " ++ e.1 ++ "\n").data, [], ?_⟩
    simp [string_data_append]
  have h3 : ("## " ++ e.1 ++ "\n" ++ pyJoin "\n\n---\n\n" (e.2.map (fun t => t.1))).data <:+:
      (fallbackDigest actionable).data := by
    apply pyJoin_contains_mem
    exact List.mem_cons_of_mem _ (List.mem_map_of_mem _ he)
  exact h1.trans (h2.trans h3)

/-- C8: when zero inline comments are accepted, exactly one fallback note
is emitted, whose body is the per-file concatenation of every mapped
part's text (separated by a horizontal rule) truncated to the 65,000
character cap - every part's body occurs inside the untruncated digest;
when at least one inline comment succeeds, no fallback note is emitted. -/
theorem fallback_note_spec
    (actionable : List (String × List (String × Nat × Option Nat)))
    (accept : String → String × Nat × Option Nat → Bool) :
    (postedCount actionable accept = 0 →
      fallbackNote actionable accept =
        some (pySlice (fallbackDigest actionable) 65000) ∧
      ∀ e ∈ actionable, ∀ t ∈ e.2,
        t.1.data <:+: (fallbackDigest actionable).data) ∧
    (postedCount actionable accept ≠ 0 → fallbackNote actionable accept = none) := by
  constructor
  · intro h
    refine ⟨by simp [fallbackNote, h], ?_⟩
    intro e he t ht
    exact part_infix_fallbackDigest actionable e he t ht
  · intro h
    simp [fallbackNote, h]

theorem fallback_note_spec_witness :
    fallbackNote [("a.py", [("partA", 1, (none : Option Nat)), ("partB", 2, (none : Option Nat))])]
        (fun _ _ => false) =
      some (pySlice
        (fallbackDigest [("a.py", [("partA", 1, (none : Option Nat)), ("partB", 2, (none : Option Nat))])]) 65000) ∧
    ∀ e ∈ [("a.py", [("partA", 1, (none : Option Nat)), ("partB", 2, (none : Option Nat))])], ∀ t ∈ e.2,
      t.1.data <:+:
        (fallbackDigest [("a.py", [("partA", 1, (none : Option Nat)), ("partB", 2, (none : Option Nat))])]).data :=
  (fallback_note_spec [("a.py", [("partA", 1, (none : Option Nat)), ("partB", 2, (none : Option Nat))])]
    (fun _ _ => false)).1 (by decide)

/-- C9: every emitted body - inline comment, summary review, fallback
note, batch-review summary and batch-review comment - is at most 65,000
characters, and a batch-review payload carries at most 50 comments. -/
theorem emission_caps :
    (∀ path line bodyMd st,
      (post_inline_comment_payload path line bodyMd st).body.data.length ≤ 65000) ∧
    (∀ bodyMd, (post_summary_review_body bodyMd).data.length ≤ 65000) ∧
    (∀ actionable accept s, fallbackNote actionable accept = some s →
      s.data.length ≤ 65000) ∧
    (∀ summaryMd files fileSuggestions,
      (create_review_payload summaryMd files fileSuggestions).comments.length ≤ 50 ∧
      (create_review_payload summaryMd files fileSuggestions).body.data.length ≤ 65000 ∧
      ∀ c ∈ (create_review_payload summaryMd files fileSuggestions).comments,
        c.body.data.length ≤ 65000) := by
  have hslice : ∀ (s : String), (pySlice s 65000).data.length ≤ 65000 := by
    intro s
    simp only [pySlice]
    rw [List.length_take]
    omega
  refine ⟨fun path line bodyMd st => hslice bodyMd, fun bodyMd => hslice bodyMd, ?_, ?_⟩
  · intro actionable accept s hs
    unfold fallbackNote at hs
    by_cases h : postedCount actionable accept = 0
    · rw [if_pos h] at hs
      rw [← Option.some.inj hs]
      exact hslice _
    · rw [if_neg h] at hs
      exact absurd hs (by simp)
  · intro summaryMd files fileSuggestions
    refine ⟨?_, hslice summaryMd, ?_⟩
    · exact List.length_take_le 50 _
    · intro c hc
      have hc2 : c ∈ buildReviewComments files fileSuggestions :=
        List.mem_of_mem_take hc
      obtain ⟨f, _, hf⟩ := List.mem_filterMap.mp hc2
      by_cases hcond : ((alGet fileSuggestions f.1).isSome &&
          ['.', 'p', 'y'].isSuffixOf f.1.data) = true
      · rw [if_pos hcond] at hf
        have : c.body = pySlice ((alGet fileSuggestions f.1).getD "") 65000 := by
          rw [← Option.some.inj hf]
        rw [this]
        exact hslice _
      · rw [if_neg hcond] at hf
        exact absurd hf (by simp)

theorem emission_caps_witness :
    (post_inline_comment_payload "a.py" 3 "hello" (some 2)).body.data.length ≤ 65000 ∧
    (post_summary_review_body "hi").data.length ≤ 65000 ∧
    (pySlice (fallbackDigest [("a.py", [("b", 1, (none : Option Nat))])]) 65000).data.length ≤ 65000 ∧
    (create_review_payload "s" [("a.py", "")] [("a.py", "b")]).comments.length ≤ 50 ∧
    ∀ c ∈ (create_review_payload "s" [("a.py", "")] [("a.py", "b")]).comments,
      c.body.data.length ≤ 65000 :=
  ⟨emission_caps.1 "a.py" 3 "hello" (some 2),
   emission_caps.2.1 "hi",
   emission_caps.2.2.1 [("a.py", [("b", 1, (none : Option Nat))])] (fun _ _ => false) _ rfl,
   (emission_caps.2.2.2 "s" [("a.py", "")] [("a.py", "b")]).1,
   (emission_caps.2.2.2 "s" [("a.py", "")] [("a.py", "b")]).2.2⟩
